import Mathlib

/-!
Verification of the tag reconciliation logic of
pkg/cloud/services/eks/tags.go (cluster-api-provider-aws, EKS service).

Tag maps (Go map[string]string) are embedded as association lists of
string pairs; lookup returns the first binding of a key, and map
assignment is modelled by insertTag, which replaces any existing binding.
A Go map has unique keys, so theorems that depend on uniqueness carry a
Nodup hypothesis on the key list.
-/

namespace EksTags

/-- A tag map: association list from tag key to tag value
(embedding of Go map[string]string). -/
abbrev TagMap := List (String × String)

/-- Lookup of a key in a tag map (Go map indexing: v, ok := m[k]). -/
def lookupTag : TagMap → String → Option String
  | [], _ => none
  | (a, b) :: m, k => if a == k then some b else lookupTag m k

/-- Map assignment m[k] = v: replaces any existing binding of k. -/
def insertTag (m : TagMap) (k v : String) : TagMap :=
  (k, v) :: m.filter fun kv => kv.1 != k

/-- Successive map assignments: every pair of extra is assigned into base,
in list order (later assignments win). -/
def overlayTags (base extra : TagMap) : TagMap :=
  extra.foldl (fun acc kv => insertTag acc kv.1 kv.2) base

/-- Embedding of getTagUpdates (tags.go lines 66-80): untagKeys collects the
keys of currentTags absent from tags; newTags keeps the pairs of tags whose
key is absent from currentTags or bound to a different value there.
A total function: it always returns, with no error outcome. -/
def getTagUpdates (currentTags : TagMap) (tags : TagMap) : List String × TagMap :=
  ((currentTags.map Prod.fst).filter fun k => (lookupTag tags k).isNone,
   tags.filter fun kv =>
     match lookupTag currentTags kv.1 with
     | none => true
     | some currentV => kv.2 != currentV)

theorem getTagUpdates_fst (c d : TagMap) :
    (getTagUpdates c d).1 = (c.map Prod.fst).filter fun k => (lookupTag d k).isNone := rfl

theorem getTagUpdates_snd (c d : TagMap) :
    (getTagUpdates c d).2 = d.filter fun kv =>
      match lookupTag c kv.1 with
      | none => true
      | some currentV => kv.2 != currentV := rfl

theorem lookupTag_isSome_iff (m : TagMap) (k : String) :
    (lookupTag m k).isSome ↔ ∃ v, (k, v) ∈ m := by
  induction m with
  | nil => simp [lookupTag]
  | cons hd t ih =>
    obtain ⟨a, b⟩ := hd
    by_cases hak : a == k
    · have : a = k := by simpa using hak
      subst this
      simp [lookupTag]
    · have hne : ¬ a = k := by simpa using hak
      simp only [lookupTag, if_neg hak, ih, List.mem_cons]
      constructor
      · rintro ⟨v, hv⟩
        exact ⟨v, Or.inr hv⟩
      · rintro ⟨v, hv | hv⟩
        · simp only [Prod.mk.injEq] at hv
          exact absurd hv.1.symm hne
        · exact ⟨v, hv⟩

theorem lookupTag_eq_some_mem {m : TagMap} {k v : String}
    (h : lookupTag m k = some v) : (k, v) ∈ m := by
  induction m with
  | nil => simp [lookupTag] at h
  | cons hd t ih =>
    obtain ⟨a, b⟩ := hd
    by_cases hak : a == k
    · have ha : a = k := by simpa using hak
      subst ha
      simp only [lookupTag, if_pos hak, Option.some.injEq] at h
      subst h
      exact List.mem_cons_self _ _
    · simp only [lookupTag, if_neg hak] at h
      exact List.mem_cons_of_mem _ (ih h)

theorem lookupTag_eq_some_of_mem_nodup {m : TagMap} {k v : String}
    (hnd : (m.map Prod.fst).Nodup) (h : (k, v) ∈ m) : lookupTag m k = some v := by
  induction m with
  | nil => simp at h
  | cons hd t ih =>
    obtain ⟨a, b⟩ := hd
    simp only [List.map_cons, List.nodup_cons] at hnd
    rcases List.mem_cons.mp h with heq | hmem
    · cases heq
      simp [lookupTag]
    · have hak : ¬(a == k) := by
        intro hcontra
        have : a = k := by simpa using hcontra
        subst this
        exact hnd.1 (List.mem_map.mpr ⟨(a, v), hmem, rfl⟩)
      simp only [lookupTag, if_neg hak]
      exact ih hnd.2 hmem

theorem lookupTag_filter_key (q : String → Bool) (m : TagMap) (k : String) :
    lookupTag (m.filter fun kv => q kv.1) k = if q k then lookupTag m k else none := by
  induction m with
  | nil => cases hq : q k <;> simp [lookupTag, hq]
  | cons hd t ih =>
    obtain ⟨a, b⟩ := hd
    rw [List.filter_cons]
    by_cases hak : a == k
    · have ha : a = k := by simpa using hak
      subst ha
      cases hq : q a with
      | false => simpa [lookupTag, hq] using ih
      | true => simp [lookupTag, hq]
    · have ha : ¬ a = k := by simpa using hak
      cases hq : q a with
      | false => simpa [lookupTag, ha, hq] using ih
      | true => simpa [lookupTag, ha, hq] using ih

theorem lookupTag_append_some {m₁ : TagMap} {k v : String} (m₂ : TagMap)
    (h : lookupTag m₁ k = some v) : lookupTag (m₁ ++ m₂) k = some v := by
  induction m₁ with
  | nil => simp [lookupTag] at h
  | cons hd t ih =>
    obtain ⟨a, b⟩ := hd
    rw [List.cons_append]
    by_cases hak : a == k
    · have ha : a = k := by simpa using hak
      subst ha
      simp only [lookupTag, beq_self_eq_true, if_true] at h ⊢
      exact h
    · have ha : ¬ a = k := by simpa using hak
      simp only [lookupTag, ha, if_false, beq_iff_eq, if_neg ha] at h ⊢
      exact ih h

theorem lookupTag_append_none {m₁ : TagMap} {k : String} (m₂ : TagMap)
    (h : lookupTag m₁ k = none) : lookupTag (m₁ ++ m₂) k = lookupTag m₂ k := by
  induction m₁ with
  | nil => simp
  | cons hd t ih =>
    obtain ⟨a, b⟩ := hd
    rw [List.cons_append]
    by_cases hak : a == k
    · have ha : a = k := by simpa using hak
      subst ha
      simp only [lookupTag, beq_self_eq_true, if_true] at h
      exact absurd h (by simp)
    · have ha : ¬ a = k := by simpa using hak
      simp only [lookupTag, beq_iff_eq, if_neg ha] at h ⊢
      exact ih h

theorem mem_map_fst_iff (m : TagMap) (k : String) :
    k ∈ m.map Prod.fst ↔ ∃ v, (k, v) ∈ m := by
  simp only [List.mem_map]
  constructor
  · rintro ⟨⟨a, b⟩, hm, rfl⟩
    exact ⟨b, hm⟩
  · rintro ⟨v, hv⟩
    exact ⟨(k, v), hv, rfl⟩

/-- C1: getTagUpdates is the exact diff of the two maps: untagKeys holds exactly
the keys present in currentTags and absent from tags, and newTags holds exactly
the pairs of tags whose key is absent from currentTags or differently valued
there. It is a total function (a plain Lean def) with no error outcome. -/
theorem getTagUpdates_characterization (current desired : TagMap) (k v : String)
    (hd : (desired.map Prod.fst).Nodup) :
    (k ∈ (getTagUpdates current desired).1 ↔
        (k ∈ current.map Prod.fst ∧ lookupTag desired k = none)) ∧
    ((k, v) ∈ (getTagUpdates current desired).2 ↔
        (lookupTag desired k = some v ∧ lookupTag current k ≠ some v)) := by
  have hmemdes : (k, v) ∈ desired ↔ lookupTag desired k = some v :=
    ⟨fun h => lookupTag_eq_some_of_mem_nodup hd h, fun h => lookupTag_eq_some_mem h⟩
  constructor
  · rw [getTagUpdates_fst, List.mem_filter]
    simp [Option.isNone_iff_eq_none]
  · rw [getTagUpdates_snd, List.mem_filter]
    cases hcur : lookupTag current k with
    | none =>
      simp only [hcur, hmemdes]
      simp
    | some cv =>
      simp only [hcur, hmemdes]
      constructor
      · rintro ⟨hdes, hne⟩
        refine ⟨hdes, fun hcontra => ?_⟩
        have : cv = v := by simpa using hcontra
        subst this
        simp at hne
      · rintro ⟨hdes, hne⟩
        refine ⟨hdes, ?_⟩
        have : v ≠ cv := fun h => hne (by simp [h])
        simpa [bne_iff_ne] using this

/-- Witness for C1 at current = [(a,1),(b,2)], desired = [(b,2),(c,3)], key a. -/
theorem getTagUpdates_characterization_witness :
    ("a" ∈ (getTagUpdates [("a", "1"), ("b", "2")] [("b", "2"), ("c", "3")]).1 ↔
        ("a" ∈ [("a", "1"), ("b", "2")].map Prod.fst ∧
          lookupTag [("b", "2"), ("c", "3")] "a" = none)) ∧
    (("a", "3") ∈ (getTagUpdates [("a", "1"), ("b", "2")] [("b", "2"), ("c", "3")]).2 ↔
        (lookupTag [("b", "2"), ("c", "3")] "a" = some "3" ∧
          lookupTag [("a", "1"), ("b", "2")] "a" ≠ some "3")) :=
  getTagUpdates_characterization [("a", "1"), ("b", "2")] [("b", "2"), ("c", "3")] "a" "3"
    (by decide)

/-- Deleting a set of keys from a tag map (the spec's delete-toDelete step). -/
def removeKeys (m : TagMap) (ks : List String) : TagMap :=
  m.filter fun kv => !(ks.contains kv.1)

/-- Inserting every pair of kvs into m (the spec's upsert-toUpsert step):
a pair of kvs wins over any binding of the same key in m. -/
def upsertTags (m kvs : TagMap) : TagMap :=
  kvs ++ (m.filter fun kv => (lookupTag kvs kv.1).isNone)

/-- Applying a diff result to a map, in the order stated by the spec:
first remove every key of toDelete, then upsert every pair of toUpsert. -/
def applyTagUpdates (m : TagMap) (upd : List String × TagMap) : TagMap :=
  upsertTags (removeKeys m upd.1) upd.2

theorem contains_eq_true_iff_mem (l : List String) (a : String) :
    l.contains a = true ↔ a ∈ l := by
  induction l with
  | nil => simp
  | cons hd t ih =>
    by_cases h : hd == a
    · have : hd = a := by simpa using h
      subst this
      simp
    · have hne : ¬ hd = a := by simpa using h
      simp [List.contains_cons, ih, hne, Ne.symm hne, h]

/-- C2: applying the diff computed by getTagUpdates to the current map (remove
untagKeys, then upsert newTags) yields a map that agrees with desired on every
key. -/
theorem applyTagUpdates_getTagUpdates (current desired : TagMap) (k : String)
    (hd : (desired.map Prod.fst).Nodup) :
    lookupTag (applyTagUpdates current (getTagUpdates current desired)) k
      = lookupTag desired k := by
  unfold applyTagUpdates upsertTags removeKeys
  cases hups : lookupTag (getTagUpdates current desired).2 k with
  | some v =>
    have hmem : (k, v) ∈ (getTagUpdates current desired).2 := lookupTag_eq_some_mem hups
    rw [getTagUpdates_snd] at hmem
    have hdes : lookupTag desired k = some v :=
      lookupTag_eq_some_of_mem_nodup hd (List.mem_filter.mp hmem).1
    rw [hdes]
    exact lookupTag_append_some _ hups
  | none =>
    rw [lookupTag_append_none _ hups]
    have h1 := lookupTag_filter_key
      (fun x => (lookupTag (getTagUpdates current desired).2 x).isNone)
      (List.filter (fun kv => !(getTagUpdates current desired).1.contains kv.1) current) k
    have h2 := lookupTag_filter_key
      (fun x => !(getTagUpdates current desired).1.contains x) current k
    rw [h1, h2]
    simp only [hups, Option.isNone_none, if_true]
    cases hdes : lookupTag desired k with
    | some w =>
      -- k is not scheduled for deletion, and current already binds k to w
      have hnotdel : ((getTagUpdates current desired).1.contains k) = false := by
        rw [Bool.eq_false_iff]
        intro hcontra
        have hmem := (contains_eq_true_iff_mem _ _).mp hcontra
        rw [getTagUpdates_fst] at hmem
        have := (List.mem_filter.mp hmem).2
        simp [Option.isNone_iff_eq_none, hdes] at this
      have hmemdes : (k, w) ∈ desired := lookupTag_eq_some_mem hdes
      have hcur : lookupTag current k = some w := by
        by_contra hne
        have hpred : (match lookupTag current k with
            | none => true
            | some currentV => w != currentV) = true := by
          cases hcur : lookupTag current k with
          | none => rfl
          | some cv =>
            simp only [bne_iff_ne, ne_eq, decide_eq_true_eq]
            intro hwc
            subst hwc
            exact hne hcur
        have hmemups : (k, w) ∈ (getTagUpdates current desired).2 := by
          rw [getTagUpdates_snd]
          exact List.mem_filter.mpr ⟨hmemdes, hpred⟩
        have hsome : (lookupTag (getTagUpdates current desired).2 k).isSome :=
          (lookupTag_isSome_iff _ _).mpr ⟨w, hmemups⟩
        rw [hups] at hsome
        simp at hsome
      have hnotmem : k ∉ (getTagUpdates current desired).1 := by
        intro hm
        rw [(contains_eq_true_iff_mem _ _).mpr hm] at hnotdel
        exact Bool.noConfusion hnotdel
      simp [hnotdel, hnotmem, hdes, hcur]
    | none =>
      cases hcontains : ((getTagUpdates current desired).1.contains k) with
      | true => simp [hdes]
      | false =>
        simp only [Bool.not_false, if_true]
        cases hcur : lookupTag current k with
        | none => rfl
        | some cv =>
          exfalso
          have hmemk : k ∈ current.map Prod.fst :=
            (mem_map_fst_iff current k).mpr ⟨cv, lookupTag_eq_some_mem hcur⟩
          have : k ∈ (getTagUpdates current desired).1 := by
            rw [getTagUpdates_fst]
            exact List.mem_filter.mpr ⟨hmemk, by simp [hdes]⟩
          rw [← contains_eq_true_iff_mem] at this
          rw [hcontains] at this
          exact Bool.noConfusion this

/-- Witness for C2 at current = [(a,1),(b,2)], desired = [(b,2),(c,3)], key c. -/
theorem applyTagUpdates_getTagUpdates_witness :
    lookupTag (applyTagUpdates [("a", "1"), ("b", "2")]
        (getTagUpdates [("a", "1"), ("b", "2")] [("b", "2"), ("c", "3")])) "c"
      = lookupTag [("b", "2"), ("c", "3")] "c" :=
  applyTagUpdates_getTagUpdates [("a", "1"), ("b", "2")] [("b", "2"), ("c", "3")] "c"
    (by decide)

/-- The constant eksClusterNameTag (tags.go line 37). -/
def eksClusterNameTag : String := "eks:cluster-name"

/-- The constant eksNodeGroupNameTag (tags.go line 38). -/
def eksNodeGroupNameTag : String := "eks:nodegroup-name"

/-- The constant eksClusterAutoscalerEnabledTag (tags.go line 39). -/
def eksClusterAutoscalerEnabledTag : String := "k8s.io/cluster-autoscaler/enabled"

/-- Modelled from the spec: infrav1.ClusterAWSCloudProviderTagKey (the cluster
AWS cloud-provider tag key, defined outside src) builds the per-cluster
cloud-provider ownership tag key from the cluster name. -/
def ClusterAWSCloudProviderTagKey (clusterName : String) : String :=
  "kubernetes.io/cluster/" ++ clusterName

/-- The list officialASGTagsByEKS built at the top of getASGTagUpdates
(tags.go lines 83-89): the five provider-reserved ASG tag keys. -/
def officialASGTagsByEKS (clusterName : String) : List String :=
  [eksClusterNameTag,
   eksNodeGroupNameTag,
   "k8s.io/cluster-autoscaler/" ++ clusterName,
   eksClusterAutoscalerEnabledTag,
   ClusterAWSCloudProviderTagKey clusterName]

/-- Embedding of getASGTagUpdates (tags.go lines 82-112): like getTagUpdates,
but a pair of currentTags whose key is one of the official EKS ASG tags is
never scheduled for deletion; tagsToDelete keeps the full pairs. -/
def getASGTagUpdates (clusterName : String) (currentTags : TagMap) (tags : TagMap) :
    TagMap × TagMap :=
  (currentTags.filter fun kv =>
     (lookupTag tags kv.1).isNone && !((officialASGTagsByEKS clusterName).contains kv.1),
   tags.filter fun kv =>
     match lookupTag currentTags kv.1 with
     | none => true
     | some currentV => kv.2 != currentV)

/-- C3: a protected (official) ASG tag key never appears among the keys of
tagsToDelete computed by getASGTagUpdates, whatever the current and desired
tag maps are - in particular when it is present in current and absent from
desired. -/
theorem getASGTagUpdates_protected (clusterName : String) (current desired : TagMap)
    (k : String) (hk : k ∈ officialASGTagsByEKS clusterName) :
    k ∉ ((getASGTagUpdates clusterName current desired).1.map Prod.fst) := by
  intro hmem
  obtain ⟨w, hw⟩ := (mem_map_fst_iff _ _).mp hmem
  have hpred := (List.mem_filter.mp hw).2
  simp only [Bool.and_eq_true, Bool.not_eq_true'] at hpred
  rw [(contains_eq_true_iff_mem _ _).mpr hk] at hpred
  exact Bool.noConfusion hpred.2

/-- Witness for C3: the protected key eks:cluster-name, present in current and
absent from desired, is not deleted (the stale key is the only candidate). -/
theorem getASGTagUpdates_protected_witness :
    "eks:cluster-name" ∉
      ((getASGTagUpdates "x" [("eks:cluster-name", "x"), ("stale", "y")] []).1.map
        Prod.fst) :=
  getASGTagUpdates_protected "x" [("eks:cluster-name", "x"), ("stale", "y")] []
    "eks:cluster-name" (by decide)

/-- Errors returned by the cloud clients; wrap models errors.Wrap / fmt.Errorf
with %w, attaching a context message to an underlying error. -/
inductive Err where
  | api : String → Err
  | wrap : String → Err → Err
deriving Repr, DecidableEq

/-- True exactly when an error outcome carries a wrapping context message. -/
def isWrapped : Option Err → Bool
  | some (Err.wrap _ _) => true
  | _ => false

/-- The EKS tag API calls issued by updateTags. -/
inductive EKSCall where
  | tagResource (arn : String) (tags : TagMap)
  | untagResource (arn : String) (tagKeys : List String)
deriving Repr, DecidableEq

/-- Responses of the EKS client (eksiface.EKSAPI): none is success,
some e the API error of that call. -/
structure EKSAPI where
  tagResource : String → TagMap → Option Err
  untagResource : String → List String → Option Err

/-- An EKS client whose calls all succeed. -/
def okEKSAPI : EKSAPI where
  tagResource := fun _ _ => none
  untagResource := fun _ _ => none

/-- Embedding of updateTags (tags.go lines 277-303): diff, then TagResource if
newTags is non-empty (returning its error raw on failure), then UntagResource
if untagKeys is non-empty (returning its error raw on failure). The result is
the list of calls issued, in order, and the returned error. -/
def updateTags (client : EKSAPI) (arn : String) (existingTags desiredTags : TagMap) :
    List EKSCall × Option Err :=
  let upd := getTagUpdates existingTags desiredTags
  if upd.2.isEmpty then
    if upd.1.isEmpty then ([], none)
    else ([EKSCall.untagResource arn upd.1], client.untagResource arn upd.1)
  else
    match client.tagResource arn upd.2 with
    | some e => ([EKSCall.tagResource arn upd.2], some e)
    | none =>
      if upd.1.isEmpty then ([EKSCall.tagResource arn upd.2], none)
      else ([EKSCall.tagResource arn upd.2, EKSCall.untagResource arn upd.1],
            client.untagResource arn upd.1)

/-- C8: diffing a tag map against itself yields no keys to untag and no tags
to add, and consequently updateTags run at convergence issues no API call at
all and succeeds. -/
theorem getTagUpdates_idempotent (d : TagMap) (client : EKSAPI) (arn : String)
    (hd : (d.map Prod.fst).Nodup) :
    getTagUpdates d d = ([], []) ∧ updateTags client arn d d = ([], none) := by
  have hfst : (getTagUpdates d d).1 = [] := by
    rw [getTagUpdates_fst, List.filter_eq_nil_iff]
    intro k hk
    obtain ⟨v, hv⟩ := (mem_map_fst_iff _ _).mp hk
    have : (lookupTag d k).isSome := (lookupTag_isSome_iff _ _).mpr ⟨v, hv⟩
    simp [Option.isNone_iff_eq_none]
    intro hcontra
    rw [hcontra] at this
    exact Bool.noConfusion this
  have hsnd : (getTagUpdates d d).2 = [] := by
    rw [getTagUpdates_snd, List.filter_eq_nil_iff]
    rintro ⟨k, v⟩ hkv
    rw [lookupTag_eq_some_of_mem_nodup hd hkv]
    simp
  have hupd : getTagUpdates d d = ([], []) := by
    rw [Prod.ext_iff]
    exact ⟨hfst, hsnd⟩
  refine ⟨hupd, ?_⟩
  unfold updateTags
  rw [hupd]
  rfl

/-- Witness for C8 at d = [(a,1),(b,2)] with the all-success client. -/
theorem getTagUpdates_idempotent_witness :
    getTagUpdates [("a", "1"), ("b", "2")] [("a", "1"), ("b", "2")] = ([], []) ∧
    updateTags okEKSAPI "arn" [("a", "1"), ("b", "2")] [("a", "1"), ("b", "2")]
      = ([], none) :=
  getTagUpdates_idempotent [("a", "1"), ("b", "2")] okEKSAPI "arn" (by decide)

/-- The EC2 tag API calls issued by updateECSTags. -/
inductive EC2Call where
  | createTags (resources : List String) (tags : List (String × String))
  | deleteTags (resources : List String) (tagKeys : List String)
deriving Repr, DecidableEq

/-- True exactly for a DeleteTags call. -/
def isDeleteCall : EC2Call → Bool
  | EC2Call.deleteTags _ _ => true
  | _ => false

/-- Responses of the EC2 client (ec2iface.EC2API): none is success,
some e the API error of that call. -/
structure EC2API where
  createTags : List String → List (String × String) → Option Err
  deleteTags : List String → List String → Option Err

/-- An EC2 client whose calls all succeed. -/
def okEC2API : EC2API where
  createTags := fun _ _ => none
  deleteTags := fun _ _ => none

/-- The ec2.Tag entries of the CreateTags request built by the loop at
tags.go lines 309-314. The loop appends pointers to the shared range
variables k and v without a per-iteration copy, so when the request is sent
after the loop every entry dereferences to the final iteration's key and
value (shared loop-variable semantics, the hazard the kCopy/vCopy comments
in reconcileASGTags of the same file guard against). -/
def buildEC2CreateEntries (newTags : TagMap) : List (String × String) :=
  match newTags.getLast? with
  | none => []
  | some last => List.replicate newTags.length last

/-- The ec2.Tag entries of the DeleteTags request built at tags.go lines
326-329: again the address of the shared range variable k is stored, so all
entries end up naming the last key. -/
def buildEC2DeleteEntries (untagKeys : List String) : List String :=
  match untagKeys.getLast? with
  | none => []
  | some last => List.replicate untagKeys.length last

/-- Embedding of updateECSTags (tags.go lines 305-341): diff, then CreateTags
if newTags is non-empty (returning its error raw on failure), then DeleteTags
if untagKeys is non-empty (returning its error raw on failure). The result is
the list of calls issued, in order, and the returned error. -/
def updateECSTags (client : EC2API) (resources : List String)
    (existingTags desiredTags : TagMap) : List EC2Call × Option Err :=
  let upd := getTagUpdates existingTags desiredTags
  if upd.2.isEmpty then
    if upd.1.isEmpty then ([], none)
    else ([EC2Call.deleteTags resources (buildEC2DeleteEntries upd.1)],
          client.deleteTags resources (buildEC2DeleteEntries upd.1))
  else
    match client.createTags resources (buildEC2CreateEntries upd.2) with
    | some e => ([EC2Call.createTags resources (buildEC2CreateEntries upd.2)], some e)
    | none =>
      if upd.1.isEmpty then
        ([EC2Call.createTags resources (buildEC2CreateEntries upd.2)], none)
      else ([EC2Call.createTags resources (buildEC2CreateEntries upd.2),
             EC2Call.deleteTags resources (buildEC2DeleteEntries upd.1)],
            client.deleteTags resources (buildEC2DeleteEntries upd.1))

/-- An autoscaling.Tag entry as built by reconcileASGTags. -/
structure ASGTag where
  key : String
  value : Option String
  propagateAtLaunch : Option Bool
  resourceId : Option String
  resourceType : Option String
deriving Repr, DecidableEq

/-- The CreateOrUpdateTags entries built by reconcileASGTags (tags.go lines
230-244): kCopy and vCopy give every entry its own storage, so each entry
carries its own key/value pair; PropagateAtLaunch is the literal
aws.Bool(true), taken from no input. -/
def buildASGCreateTags (asgName : Option String) (tagsToAdd : TagMap) : List ASGTag :=
  tagsToAdd.map fun kv =>
    { key := kv.1, value := some kv.2, propagateAtLaunch := some true,
      resourceId := asgName, resourceType := some "auto-scaling-group" }

/-- C6: in the CreateTags request of updateECSTags the entries alias the shared
loop variables: for toUpsert = [(a,1),(b,2)] the request carries two entries
that both hold the final pair (b,2) instead of one entry per key with its own
value; the CreateOrUpdateTags request of reconcileASGTags, which copies the
loop variables per iteration, does carry each key with its own value. -/
theorem updateECSTags_aliased_entries :
    buildEC2CreateEntries [("a", "1"), ("b", "2")] = [("b", "2"), ("b", "2")] ∧
    buildEC2CreateEntries [("a", "1"), ("b", "2")] ≠ [("a", "1"), ("b", "2")] ∧
    buildEC2DeleteEntries ["a", "b"] = ["b", "b"] ∧
    (buildASGCreateTags (some "asg") [("a", "1"), ("b", "2")]).map
        (fun t => (t.key, t.value))
      = [("a", some "1"), ("b", some "2")] := by
  refine ⟨rfl, by decide, rfl, rfl⟩

/-- C9: every entry of the CreateOrUpdateTags request built by
reconcileASGTags has PropagateAtLaunch = true, whatever the ASG name and the
tags to add are: the value is the fixed literal aws.Bool(true), configurable
by no input. -/
theorem reconcileASGTags_propagateAtLaunch (asgName : Option String) (tagsToAdd : TagMap) :
    ((buildASGCreateTags asgName tagsToAdd).all
      fun t => t.propagateAtLaunch == some true) = true := by
  rw [List.all_eq_true]
  intro t ht
  obtain ⟨kv, _, rfl⟩ := List.mem_map.mp ht
  rfl

/-- An EKS client whose TagResource call fails with a raw API error. -/
def failTagEKSAPI : EKSAPI where
  tagResource := fun _ _ => some (Err.api "boom")
  untagResource := fun _ _ => none

/-- Counterexample to C7: with a failing TagResource, updateTags stops after
the single TagResource call and returns the raw API error unchanged: the
error is not wrapped with any context identifying operation or resource. -/
theorem updateTags_error_unwrapped_cex :
    updateTags failTagEKSAPI "arn" [] [("a", "1")]
      = ([EKSCall.tagResource "arn" [("a", "1")]], some (Err.api "boom")) ∧
    isWrapped (updateTags failTagEKSAPI "arn" [] [("a", "1")]).2 = false := by
  exact ⟨rfl, rfl⟩

/-- C7 as amended: in updateTags and updateECSTags a failing tag API call
aborts the reconciliation of that resource at once - no subsequent tag API
call is issued, no retry, no rollback of calls already made - and the error
is propagated to the caller unchanged (not wrapped with context). -/
theorem tagUpdate_failure_aborts (eks : EKSAPI) (ec2 : EC2API) (arn : String)
    (resources : List String) (existing desired : TagMap) (e : Err) :
    ((getTagUpdates existing desired).2.isEmpty = false →
      eks.tagResource arn (getTagUpdates existing desired).2 = some e →
      updateTags eks arn existing desired
        = ([EKSCall.tagResource arn (getTagUpdates existing desired).2], some e)) ∧
    ((getTagUpdates existing desired).2.isEmpty = false →
      eks.tagResource arn (getTagUpdates existing desired).2 = none →
      (getTagUpdates existing desired).1.isEmpty = false →
      eks.untagResource arn (getTagUpdates existing desired).1 = some e →
      updateTags eks arn existing desired
        = ([EKSCall.tagResource arn (getTagUpdates existing desired).2,
            EKSCall.untagResource arn (getTagUpdates existing desired).1], some e)) ∧
    ((getTagUpdates existing desired).2.isEmpty = false →
      ec2.createTags resources
          (buildEC2CreateEntries (getTagUpdates existing desired).2) = some e →
      updateECSTags ec2 resources existing desired
        = ([EC2Call.createTags resources
              (buildEC2CreateEntries (getTagUpdates existing desired).2)], some e)) ∧
    ((getTagUpdates existing desired).2.isEmpty = false →
      ec2.createTags resources
          (buildEC2CreateEntries (getTagUpdates existing desired).2) = none →
      (getTagUpdates existing desired).1.isEmpty = false →
      ec2.deleteTags resources
          (buildEC2DeleteEntries (getTagUpdates existing desired).1) = some e →
      updateECSTags ec2 resources existing desired
        = ([EC2Call.createTags resources
              (buildEC2CreateEntries (getTagUpdates existing desired).2),
            EC2Call.deleteTags resources
              (buildEC2DeleteEntries (getTagUpdates existing desired).1)], some e)) := by
  refine ⟨?_, ?_, ?_, ?_⟩
  · intro h2 hfail
    simp [updateTags, h2, hfail]
  · intro h2 hok h1 hfail
    simp [updateTags, h2, hok, h1, hfail]
  · intro h2 hfail
    simp [updateECSTags, h2, hfail]
  · intro h2 hok h1 hfail
    simp [updateECSTags, h2, hok, h1, hfail]

/-- Witness for the amended C7: the failing TagResource case at a concrete
input. -/
theorem tagUpdate_failure_aborts_witness :
    updateTags failTagEKSAPI "arn" [] [("a", "1")]
      = ([EKSCall.tagResource "arn" [("a", "1")]], some (Err.api "boom")) :=
  (tagUpdate_failure_aborts failTagEKSAPI okEC2API "arn" [] [] [("a", "1")]
    (Err.api "boom")).1 rfl rfl

theorem lookupTag_insertTag (m : TagMap) (a b k : String) :
    lookupTag (insertTag m a b) k = if a == k then some b else lookupTag m k := by
  have h := lookupTag_filter_key (fun x => x != a) m k
  by_cases hak : a == k
  · simp [insertTag, lookupTag, hak]
  · have ha : ¬ a = k := by simpa using hak
    simp only [insertTag, lookupTag, hak, if_false]
    rw [h]
    simp [bne_iff_ne, Ne.symm ha]

theorem overlayTags_cons (base : TagMap) (a b : String) (t : TagMap) :
    overlayTags base ((a, b) :: t) = overlayTags (insertTag base a b) t := rfl

theorem lookupTag_overlay_isSome (extra base : TagMap) (k : String)
    (h : (lookupTag base k).isSome) :
    (lookupTag (overlayTags base extra) k).isSome := by
  induction extra generalizing base with
  | nil => exact h
  | cons hd t ih =>
    obtain ⟨a, b⟩ := hd
    rw [overlayTags_cons]
    apply ih
    rw [lookupTag_insertTag]
    by_cases hak : a == k
    · simp [hak]
    · simpa [hak] using h

theorem lookupTag_overlay_mono (extra base₁ base₂ : TagMap) (k : String)
    (hmono : (lookupTag base₁ k).isSome → (lookupTag base₂ k).isSome)
    (h : (lookupTag (overlayTags base₁ extra) k).isSome) :
    (lookupTag (overlayTags base₂ extra) k).isSome := by
  induction extra generalizing base₁ base₂ with
  | nil => exact hmono h
  | cons hd t ih =>
    obtain ⟨a, b⟩ := hd
    rw [overlayTags_cons] at h ⊢
    refine ih (insertTag base₁ a b) (insertTag base₂ a b) ?_ h
    intro hs
    rw [lookupTag_insertTag] at hs ⊢
    by_cases hak : a == k
    · simp [hak]
    · simp only [hak, if_false] at hs ⊢
      exact hmono hs

theorem getTagUpdates_fst_nil_of_cover (current desired : TagMap)
    (h : ∀ x : String, (lookupTag current x).isSome → (lookupTag desired x).isSome) :
    (getTagUpdates current desired).1 = [] := by
  rw [getTagUpdates_fst, List.filter_eq_nil_iff]
  intro k hk
  obtain ⟨v, hv⟩ := (mem_map_fst_iff _ _).mp hk
  have hs := h k ((lookupTag_isSome_iff _ _).mpr ⟨v, hv⟩)
  simp only [Option.isNone_iff_eq_none]
  intro hcontra
  rw [hcontra] at hs
  exact Bool.noConfusion hs

theorem updateECSTags_no_delete_of_nil (client : EC2API) (resources : List String)
    (existing desired : TagMap)
    (h : (getTagUpdates existing desired).1 = []) :
    ((updateECSTags client resources existing desired).1.all
      fun c => !(isDeleteCall c)) = true := by
  simp only [updateECSTags]
  cases h2 : (getTagUpdates existing desired).2.isEmpty with
  | true => simp [h, h2]
  | false =>
    cases hc : client.createTags resources
        (buildEC2CreateEntries (getTagUpdates existing desired).2) with
    | none => simp [h, h2, hc, isDeleteCall]
    | some e => simp [h2, hc, isDeleteCall]

/-- The two identity tags put into desired first for a volume
(tags.go lines 190-191). -/
def volumeSeed (clusterName ngName : String) : TagMap :=
  insertTag (insertTag [] eksClusterNameTag clusterName) eksNodeGroupNameTag ngName

/-- C10: the per-instance and per-volume desired maps of
reconcileInstanceTags (lines 148-157) and reconcileEBSVolumeTags (lines
189-200) are built by copying the resource's current tags and overlaying the
nodegroup tags, so every current key stays desired: the diff schedules no
deletion and updateECSTags never issues a DeleteTags call from these
reconcilers. -/
theorem instance_volume_reconcilers_never_delete
    (instTags volTags ngtags : TagMap) (clusterName ngName : String)
    (client : EC2API) (resources : List String) :
    (getTagUpdates (overlayTags [] instTags)
        (overlayTags (overlayTags [] instTags) ngtags)).1 = [] ∧
    (getTagUpdates (overlayTags [] volTags)
        (overlayTags (overlayTags (volumeSeed clusterName ngName) volTags) ngtags)).1
      = [] ∧
    ((updateECSTags client resources (overlayTags [] instTags)
        (overlayTags (overlayTags [] instTags) ngtags)).1.all
      fun c => !(isDeleteCall c)) = true ∧
    ((updateECSTags client resources (overlayTags [] volTags)
        (overlayTags (overlayTags (volumeSeed clusterName ngName) volTags) ngtags)).1.all
      fun c => !(isDeleteCall c)) = true := by
  have hinst : (getTagUpdates (overlayTags [] instTags)
      (overlayTags (overlayTags [] instTags) ngtags)).1 = [] := by
    apply getTagUpdates_fst_nil_of_cover
    intro x hx
    exact lookupTag_overlay_isSome ngtags _ x hx
  have hvol : (getTagUpdates (overlayTags [] volTags)
      (overlayTags (overlayTags (volumeSeed clusterName ngName) volTags) ngtags)).1
        = [] := by
    apply getTagUpdates_fst_nil_of_cover
    intro x hx
    apply lookupTag_overlay_isSome ngtags
    refine lookupTag_overlay_mono volTags [] (volumeSeed clusterName ngName) x ?_ hx
    intro hcontra
    simp [lookupTag] at hcontra
  exact ⟨hinst, hvol,
    updateECSTags_no_delete_of_nil client resources _ _ hinst,
    updateECSTags_no_delete_of_nil client resources _ _ hvol⟩

/-- The fields of an ec2.Instance used by reconcileInstanceTags. -/
structure Ec2Instance where
  instanceId : String
  tags : TagMap
  volumeIds : List String
deriving Repr, DecidableEq

/-- The fields of a DescribeInstances response page used by
reconcileInstanceTags: the reservations (flattened here to their instances)
and the NextToken. -/
structure DescribeInstancesOutput where
  instances : List Ec2Instance
  nextToken : Option String
deriving Repr, DecidableEq

/-- The fields of an ec2.Volume used by reconcileEBSVolumeTags. -/
structure EbsVolume where
  volumeId : String
  tags : TagMap
deriving Repr, DecidableEq

/-- The fields of a DescribeVolumes response page used by
reconcileEBSVolumeTags. -/
structure DescribeVolumesOutput where
  volumes : List EbsVolume
  nextToken : Option String
deriving Repr, DecidableEq

/-- The page loop of reconcileInstanceTags (tags.go lines 145-176), embedded
exactly as written: the body processes output.Reservations (collected here as
the instances handled in that iteration) and the loop exits only when
output.NextToken is nil. The body never issues another DescribeInstances call
and never reassigns output, so every iteration re-reads the same first page.
fuel bounds the number of iterations observed; the Bool is true when the
loop exited within that bound, false when it was still running. -/
def instancePageLoopTrace (fuel : Nat) (output : DescribeInstancesOutput) :
    List Ec2Instance × Bool :=
  match fuel with
  | 0 => ([], false)
  | Nat.succ n =>
    match output.nextToken with
    | none => (output.instances, true)
    | some _ =>
      let rest := instancePageLoopTrace n output
      (output.instances ++ rest.1, rest.2)

/-- The page loop of reconcileEBSVolumeTags (tags.go lines 187-208), with the
same structure and the same missing next-page fetch. -/
def volumePageLoopTrace (fuel : Nat) (output : DescribeVolumesOutput) :
    List EbsVolume × Bool :=
  match fuel with
  | 0 => ([], false)
  | Nat.succ n =>
    match output.nextToken with
    | none => (output.volumes, true)
    | some _ =>
      let rest := volumePageLoopTrace n output
      (output.volumes ++ rest.1, rest.2)

/-- First page of a 3-page DescribeInstances result: NextToken is non-nil. -/
def threePageInstancesFirst : DescribeInstancesOutput :=
  { instances := [{ instanceId := "i-1", tags := [], volumeIds := ["vol-1"] }],
    nextToken := some "page2" }

/-- First page of a 3-page DescribeVolumes result: NextToken is non-nil. -/
def threePageVolumesFirst : DescribeVolumesOutput :=
  { volumes := [{ volumeId := "vol-1", tags := [] }],
    nextToken := some "page2" }

/-- C4, on the code as written: on a 3-page describe result (non-nil
NextToken) the page loops of reconcileInstanceTags and reconcileEBSVolumeTags
never exit, however many iterations are observed, and only re-process the
first page over and over: the later pages are never fetched, the per-resource
diffs run on first-page data only, and the reconciler does not terminate. -/
theorem pagination_loops_never_drain :
    (∀ fuel : Nat, instancePageLoopTrace fuel threePageInstancesFirst
      = (List.replicate fuel
          { instanceId := "i-1", tags := [], volumeIds := ["vol-1"] }, false)) ∧
    (∀ fuel : Nat, volumePageLoopTrace fuel threePageVolumesFirst
      = (List.replicate fuel { volumeId := "vol-1", tags := [] }, false)) := by
  constructor
  · intro fuel
    induction fuel with
    | zero => rfl
    | succ n ih =>
      simp only [threePageInstancesFirst] at ih
      simp only [instancePageLoopTrace, threePageInstancesFirst, ih, List.replicate_succ]
      rfl
  · intro fuel
    induction fuel with
    | zero => rfl
    | succ n ih =>
      simp only [threePageVolumesFirst] at ih
      simp only [volumePageLoopTrace, threePageVolumesFirst, ih, List.replicate_succ]
      rfl

/-- A tag-update API call of the nodegroup cascade, tagged with the entity it
targets: EKS TagResource/UntagResource on the nodegroup, autoscaling
CreateOrUpdateTags/DeleteTags on an ASG, EC2 CreateTags/DeleteTags on an
instance or a volume. -/
inductive TagCallEvent where
  | nodegroupTag
  | nodegroupUntag
  | asgTag (asgName : String)
  | asgUntag (asgName : String)
  | instanceTag (instanceId : String)
  | instanceUntag (instanceId : String)
  | volumeTag (volumeId : String)
  | volumeUntag (volumeId : String)
deriving Repr, DecidableEq

/-- Modelled from the spec: ngTags (the desired-tag builder for nodegroups,
defined outside src) merges the user additional tags with the cluster
ownership tag (spec 4.2: ownership marker plus additional tags). -/
def ngTags (clusterName : String) (additional : TagMap) : TagMap :=
  insertTag additional (ClusterAWSCloudProviderTagKey clusterName) "owned"

/-- The cloud-side state a nodegroup reconciliation reads, with every
describe call answering in a single page (NextToken nil), the case in which
the page loops of tags.go run their body exactly once. -/
structure NodegroupWorld where
  clusterName : String
  nodegroupName : String
  additionalTags : TagMap
  ngCurrentTags : TagMap
  asgs : List (String × TagMap)
  asgInstanceIds : String → List String
  instTags : String → TagMap
  instVols : String → List String
  volTags : String → TagMap

/-- The tag API calls updateECSTags issues for one resource, in order:
CreateTags when newTags is non-empty, then DeleteTags when untagKeys is
non-empty. -/
def ecsCallEvents (made deleted : TagCallEvent) (existing desired : TagMap) :
    List TagCallEvent :=
  let upd := getTagUpdates existing desired
  (if upd.2.isEmpty then [] else [made]) ++ (if upd.1.isEmpty then [] else [deleted])

/-- The tag calls of reconcileEBSVolumeTags (tags.go lines 180-210) for a
single-page DescribeVolumes response: per volume, desired is the two identity
tags, then the volume's own tags, then the nodegroup tags, and updateECSTags
runs on it. -/
def reconcileEBSVolumeTagsEvents (w : NodegroupWorld) (ngtags : TagMap)
    (volumeIds : List String) : List TagCallEvent :=
  volumeIds.flatMap fun vid =>
    ecsCallEvents (TagCallEvent.volumeTag vid) (TagCallEvent.volumeUntag vid)
      (overlayTags [] (w.volTags vid))
      (overlayTags (overlayTags (volumeSeed w.clusterName w.nodegroupName)
        (w.volTags vid)) ngtags)

/-- The tag calls of reconcileInstanceTags (tags.go lines 122-178) for
single-page describe responses: the instance ids of all ASGs are collected
first, then per instance updateECSTags runs (desired = instance tags
overlaid with nodegroup tags) and the instance's volumes are reconciled
immediately after. -/
def reconcileInstanceTagsEvents (w : NodegroupWorld) : List TagCallEvent :=
  let ngtags := ngTags w.clusterName w.additionalTags
  let ids := (w.asgs.map Prod.fst).flatMap w.asgInstanceIds
  ids.flatMap fun iid =>
    ecsCallEvents (TagCallEvent.instanceTag iid) (TagCallEvent.instanceUntag iid)
      (overlayTags [] (w.instTags iid))
      (overlayTags (overlayTags [] (w.instTags iid)) ngtags)
    ++ reconcileEBSVolumeTagsEvents w ngtags (w.instVols iid)

/-- The tag calls of reconcileASGTags (tags.go lines 220-270) for one ASG:
CreateOrUpdateTags when tagsToAdd is non-empty, then DeleteTags when
tagsToDelete is non-empty, diffing the ASG's tags against the additional
tags with the official-tag exemption. -/
def reconcileASGTagsEvents (w : NodegroupWorld) (asgName : String)
    (asgTags : TagMap) : List TagCallEvent :=
  let upd := getASGTagUpdates w.clusterName asgTags w.additionalTags
  (if upd.2.isEmpty then [] else [TagCallEvent.asgTag asgName]) ++
  (if upd.1.isEmpty then [] else [TagCallEvent.asgUntag asgName])

/-- Modelled from the spec: the nodegroup reconcile entry point (the caller of
reconcileASGTags and reconcileTags, outside src) reconciles the tags of each
backing ASG first, then the nodegroup's own EKS tags (reconcileTags, tags.go
lines 114-120), then cascades to instances and volumes (spec 4.4 cascade
order: ASG tags, then instance tags, then volume tags). -/
def reconcileNodegroupEvents (w : NodegroupWorld) : List TagCallEvent :=
  (w.asgs.flatMap fun asg => reconcileASGTagsEvents w asg.1 asg.2)
  ++ (let upd := getTagUpdates w.ngCurrentTags (ngTags w.clusterName w.additionalTags)
      (if upd.2.isEmpty then [] else [TagCallEvent.nodegroupTag])
      ++ (if upd.1.isEmpty then [] else [TagCallEvent.nodegroupUntag]))
  ++ reconcileInstanceTagsEvents w

/-- Keeps the ASG, instance and volume tag calls of the cascade (the entities
C5 counts), dropping only the nodegroup's own EKS tag call. -/
def isCascadeCall : TagCallEvent → Bool
  | TagCallEvent.nodegroupTag => false
  | TagCallEvent.nodegroupUntag => false
  | _ => true

/-- A nodegroup with 2 ASGs, each with 1 instance with 1 attached volume; no
entity is tagged yet and one additional tag is desired, so every entity needs
exactly one tag-update call. -/
def twoAsgWorld : NodegroupWorld where
  clusterName := "cluster"
  nodegroupName := "ng"
  additionalTags := [("team", "dev")]
  ngCurrentTags := []
  asgs := [("asg-a", []), ("asg-b", [])]
  asgInstanceIds := fun n => if n == "asg-a" then ["i-a"] else
    if n == "asg-b" then ["i-b"] else []
  instTags := fun _ => []
  instVols := fun i => if i == "i-a" then ["vol-a"] else
    if i == "i-b" then ["vol-b"] else []
  volTags := fun _ => []

/-- C5: on a nodegroup with 2 ASGs, each with 1 instance with 1 volume, the
reconciliation issues exactly one ASG tag call per ASG, one instance tag call
per instance and one volume tag call per volume, in ASG, instance, volume
order, each instance's volume processed immediately after that instance's
tag update, and no delete call. -/
theorem nodegroup_cascade_order :
    (reconcileNodegroupEvents twoAsgWorld).filter isCascadeCall
      = [TagCallEvent.asgTag "asg-a", TagCallEvent.asgTag "asg-b",
         TagCallEvent.instanceTag "i-a", TagCallEvent.volumeTag "vol-a",
         TagCallEvent.instanceTag "i-b", TagCallEvent.volumeTag "vol-b"] := by
  rfl

end EksTags
